import Mathlib

/-!
# canalzk-exporter: the per-cluster scan `collector.collectNew`

A shallow embedding of `src/main.go`.  One call of `collectNew` is a pure function of

* the cluster descriptor (`canalzk`),
* the outcome of `zk.Connect` (`ConnectResult`: a live session, or an error with a nil client),
* the coordination store behind the session (`Session`: the outcome of every `Children` and
  `Get` call, by path),
* the wall clock (`Clock`: the successive readings of `time.Now()`).

Its result (`Run`) records the samples sent on the channel `ch`, in order, and how the
goroutine ended.

Library behaviour the source relies on is modelled next to the code that uses it:
`path.Join` (`pathJoin`), `encoding/json.Unmarshal` into a `cursor` (`unmarshalCursor`),
64-bit integer arithmetic (`wrapInt64`) and the conversions between int64 and float64
(`roundToFloat64`, `toInt64`).
-/

set_option autoImplicit false
set_option linter.dupNamespace false

namespace CanalZk

/-! ## Constants and metric descriptors (`main.go` 21-36, 293-316) -/

/-- Constant `namespace` of the source. -/
def namespaceName : String := "canal"

/-- Constant `canalpath` of the source. -/
def canalpath : String := "/otter/canal/destinations"

/-- The four metric descriptors created in `main`. -/
inductive Desc where
  | canalzk_running
  | canalzk_timestamp
  | canalzk_cluster
  | canalzk_up
  deriving DecidableEq, Repr

/-- The last argument of `prometheus.BuildFQName(namespace, "zk", ·)` for each descriptor. -/
def Desc.shortName : Desc → String
  | .canalzk_running => "running"
  | .canalzk_timestamp => "timestamp"
  | .canalzk_cluster => "cluster"
  | .canalzk_up => "up"

/-- The fully qualified metric name, `prometheus.BuildFQName(namespace, "zk", name)`. -/
def Desc.fqName (d : Desc) : String :=
  namespaceName ++ "_" ++ "zk" ++ "_" ++ d.shortName

/-- The variable label names given to `prometheus.NewDesc`. -/
def Desc.variableLabels : Desc → List String
  | .canalzk_up => ["jq", "zkhost"]
  | _ => ["jq", "destination"]

/-- One metric sent on `ch`: `prometheus.MustNewConstMetric(desc, GaugeValue, value,
labelValues...)`.  Every value the source sends is `float64(n)` for a machine integer `n`,
a float64 with an integer value; `value` holds that float64, as the integer it equals.  The
source always passes two label values, which are text, so `MustNewConstMetric` itself does
not panic. -/
structure Sample where
  desc : Desc
  value : Int
  labelValues : List String
  deriving DecidableEq, Repr

/-- The value a sample carries for the label called `name`, if its descriptor has that label. -/
def Sample.label (s : Sample) (name : String) : Option String :=
  (s.desc.variableLabels.zip s.labelValues).lookup name

/-! ## `path.Join` -/

/-- Split a path at every `/`. -/
def splitSlash : List Char → List (List Char)
  | [] => [[]]
  | c :: cs =>
    match splitSlash cs with
    | [] => [[]]
    | seg :: segs => if c = '/' then [] :: seg :: segs else (c :: seg) :: segs

/-- The element-wise work of `path.Clean`: drop empty and `.` elements, let `..` cancel the
element before it, drop `..` at the root.  `acc` is the stack of kept elements, last first. -/
def cleanElems (rooted : Bool) : List (List Char) → List (List Char) → List (List Char)
  | acc, [] => acc.reverse
  | acc, e :: es =>
    if e = [] ∨ e = ['.'] then cleanElems rooted acc es
    else if e = ['.', '.'] then
      match acc with
      | [] => if rooted then cleanElems rooted [] es else cleanElems rooted [e] es
      | top :: below =>
        if top = ['.', '.'] then cleanElems rooted (e :: acc) es
        else cleanElems rooted below es
    else cleanElems rooted (e :: acc) es

/-- Write the elements with `/` between them. -/
def joinSlash : List (List Char) → List Char
  | [] => []
  | [e] => e
  | e :: es => e ++ '/' :: joinSlash es

/-- Go `path.Clean`: the shortest path equivalent to `p` by purely lexical processing. -/
def pathClean (p : List Char) : List Char :=
  match p with
  | [] => ['.']
  | c :: _ =>
    let rooted : Bool := c = '/'
    let body := joinSlash (cleanElems rooted [] (splitSlash p))
    if rooted then '/' :: body
    else if body = [] then ['.'] else body

/-- The buffer `path.Join` builds before cleaning: leading empty elements are skipped, every
later element is appended after a `/`. -/
def joinBuf : List Char → List String → List Char
  | buf, [] => buf
  | buf, e :: es =>
    if buf ≠ [] ∨ e ≠ "" then
      joinBuf ((if buf ≠ [] then buf ++ ['/'] else buf) ++ e.data) es
    else joinBuf buf es

/-- Go `path.Join(elem...)`. -/
def pathJoin (elem : List String) : String :=
  if elem.all (fun e => e.data = []) then ""
  else String.mk (pathClean (joinBuf [] elem))

/-! ## Machine arithmetic -/

/-- Reduce an integer to the two's-complement `int64` range, as Go's `int64` arithmetic does
on overflow. -/
def wrapInt64 (x : Int) : Int :=
  (x + 2 ^ 63) % 2 ^ 64 - 2 ^ 63

/-- Number of binary digits of `n`, counted with at most `fuel` halvings. -/
def bitLenAux : Nat → Nat → Nat
  | 0, _ => 0
  | fuel + 1, n => if n = 0 then 0 else bitLenAux fuel (n / 2) + 1

/-- Number of binary digits of `n`. -/
def bitLen (n : Nat) : Nat := bitLenAux n n

/-- The magnitude of the float64 nearest to a magnitude `a` (round to nearest, ties to even):
`a` itself below `2 ^ 53`, else `a` rounded to 53 significant binary digits. -/
def roundMag (a : Nat) : Nat :=
  if a < 2 ^ 53 then a
  else
    let e := bitLen a - 53
    let q := a / 2 ^ e
    let r := a % 2 ^ e
    let half := 2 ^ (e - 1)
    (if half < r ∨ (r = half ∧ q % 2 = 1) then q + 1 else q) * 2 ^ e

/-- Go `float64(n)` for a machine integer `n`, and the float64 a JSON integer literal `n` is
parsed to: the float64 nearest to `n`, as an integer.  Integers below `2 ^ 53` in absolute
value are represented exactly. -/
def roundToFloat64 (n : Int) : Int :=
  if n < 0 then -(roundMag n.natAbs : Int) else (roundMag n.natAbs : Int)

/-- Go `int64(f)` for a float64 `f` with an integer value, held as that integer.  In range
the conversion is exact; out of range the Go specification leaves the result to the
implementation, and the amd64 value (the smallest int64) is used here. -/
def toInt64 (f : Int) : Int :=
  if -(2 : Int) ^ 63 ≤ f ∧ f < 2 ^ 63 then f else -(2 : Int) ^ 63

/-! ## The cursor record and `json.Unmarshal` (`main.go` 38-61, 172-173) -/

/-- Struct `Sourceaddress` of the source. -/
structure Sourceaddress where
  Address : String := ""
  Port : Int := 0
  deriving DecidableEq, Repr

/-- Struct `Identity` of the source; a nil pointer is `none`. -/
structure Identity where
  Slaveid : Int := 0
  Sourceaddress : Option Sourceaddress := none
  deriving DecidableEq, Repr

/-- Struct `Postion` of the source.  The two `float64` fields hold floats with an integer
value, as that integer. -/
structure Postion where
  Gtid : String := ""
  Included : Bool := false
  Journal : String := ""
  Postion : Int := 0
  Serverid : String := ""
  Timestamp : Int := 0
  deriving DecidableEq, Repr

/-- Struct `cursor` of the source (its field `Type` is written `Type_`); a nil pointer is
`none`. -/
structure cursor where
  Type_ : String := ""
  Identity : Option Identity := none
  Postion : Option Postion := none
  deriving DecidableEq, Repr

/-- A JSON text after parsing.  Object members keep their order and duplicates.  Numbers are
restricted to integer literals (the cursor timestamp is a count of milliseconds). -/
inductive JValue where
  | null
  | bool (b : Bool)
  | number (n : Int)
  | string (s : String)
  | array (items : List JValue)
  | object (members : List (String × JValue))

/-- The bytes stored in a node: either not a valid JSON text, or a JSON value. -/
inductive Payload where
  | invalid
  | json (v : JValue)

/-- Case folding of one rune of an object key, as a code point: ASCII letters to upper case,
and the two non-ASCII runes whose fold is an ASCII letter. -/
def foldRune (c : Char) : Nat :=
  if 97 ≤ c.toNat ∧ c.toNat ≤ 122 then c.toNat - 32
  else if c.toNat = 0x17F then 83
  else if c.toNat = 0x212A then 75
  else c.toNat

/-- Case folding of an object key. -/
def foldName (s : String) : List Nat := s.data.map foldRune

/-- The struct field (by JSON tag) an object key is stored in: an exact match of the tag if
there is one, else the first tag equal to the key under case folding. -/
def findField (tags : List String) (key : String) : Option String :=
  match tags.find? (fun t => t == key) with
  | some t => some t
  | none => tags.find? (fun t => foldName t == foldName key)

/-- Store a JSON value in a `string` field: the new field value, and whether a type error was
recorded. -/
def storeString (old : String) : JValue → String × Bool
  | .string s => (s, false)
  | .null => (old, false)
  | _ => (old, true)

/-- Store a JSON value in a `bool` field. -/
def storeBool (old : Bool) : JValue → Bool × Bool
  | .bool b => (b, false)
  | .null => (old, false)
  | _ => (old, true)

/-- Store a JSON value in an `int64` field. -/
def storeInt64 (old : Int) : JValue → Int × Bool
  | .number n => if -(2 : Int) ^ 63 ≤ n ∧ n < 2 ^ 63 then (n, false) else (old, true)
  | .null => (old, false)
  | _ => (old, true)

/-- Store a JSON value in a `float64` field; a number whose nearest float64 would need more
than 1024 binary digits overflows, which is a type error. -/
def storeFloat64 (old : Int) : JValue → Int × Bool
  | .number n =>
    if bitLen (roundToFloat64 n).natAbs ≤ 1024 then (roundToFloat64 n, false) else (old, true)
  | .null => (old, false)
  | _ => (old, true)

/-- Store a JSON value in a pointer-to-struct field: `null` sets the pointer to nil, anything
else allocates the struct when the pointer is nil; only an object is then decoded into it. -/
def storePtr {α : Type} (zero : α) (decode : α → List (String × JValue) → α × Bool)
    (old : Option α) : JValue → Option α × Bool
  | .null => (none, false)
  | .object members =>
    let r := decode (old.getD zero) members
    (some r.1, r.2)
  | _ => (some (old.getD zero), true)

/-- Decode one object member into a `Sourceaddress`. -/
def stepSourceaddress (st : Sourceaddress × Bool) (m : String × JValue) : Sourceaddress × Bool :=
  match findField ["address", "port"] m.1 with
  | some "address" =>
    let r := storeString st.1.Address m.2
    ({ st.1 with Address := r.1 }, st.2 || r.2)
  | some "port" =>
    let r := storeInt64 st.1.Port m.2
    ({ st.1 with Port := r.1 }, st.2 || r.2)
  | _ => st

/-- Decode a JSON object into a `Sourceaddress`. -/
def decodeSourceaddress (old : Sourceaddress) (members : List (String × JValue)) :
    Sourceaddress × Bool :=
  members.foldl stepSourceaddress (old, false)

/-- Decode one object member into an `Identity`. -/
def stepIdentity (st : Identity × Bool) (m : String × JValue) : Identity × Bool :=
  match findField ["slaveId", "sourceAddress"] m.1 with
  | some "slaveId" =>
    let r := storeInt64 st.1.Slaveid m.2
    ({ st.1 with Slaveid := r.1 }, st.2 || r.2)
  | some "sourceAddress" =>
    let r := storePtr {} decodeSourceaddress st.1.Sourceaddress m.2
    ({ st.1 with Sourceaddress := r.1 }, st.2 || r.2)
  | _ => st

/-- Decode a JSON object into an `Identity`. -/
def decodeIdentity (old : Identity) (members : List (String × JValue)) : Identity × Bool :=
  members.foldl stepIdentity (old, false)

/-- Decode one object member into a `Postion`. -/
def stepPostion (st : Postion × Bool) (m : String × JValue) : Postion × Bool :=
  match findField ["gtid", "included", "journalName", "position", "serverId", "timestamp"]
      m.1 with
  | some "gtid" =>
    let r := storeString st.1.Gtid m.2
    ({ st.1 with Gtid := r.1 }, st.2 || r.2)
  | some "included" =>
    let r := storeBool st.1.Included m.2
    ({ st.1 with Included := r.1 }, st.2 || r.2)
  | some "journalName" =>
    let r := storeString st.1.Journal m.2
    ({ st.1 with Journal := r.1 }, st.2 || r.2)
  | some "position" =>
    let r := storeFloat64 st.1.Postion m.2
    ({ st.1 with Postion := r.1 }, st.2 || r.2)
  | some "serverId" =>
    let r := storeString st.1.Serverid m.2
    ({ st.1 with Serverid := r.1 }, st.2 || r.2)
  | some "timestamp" =>
    let r := storeFloat64 st.1.Timestamp m.2
    ({ st.1 with Timestamp := r.1 }, st.2 || r.2)
  | _ => st

/-- Decode a JSON object into a `Postion`. -/
def decodePostion (old : Postion) (members : List (String × JValue)) : Postion × Bool :=
  members.foldl stepPostion (old, false)

/-- Decode one object member into a `cursor`. -/
def stepCursor (st : cursor × Bool) (m : String × JValue) : cursor × Bool :=
  match findField ["@type", "identity", "postion"] m.1 with
  | some "@type" =>
    let r := storeString st.1.Type_ m.2
    ({ st.1 with Type_ := r.1 }, st.2 || r.2)
  | some "identity" =>
    let r := storePtr {} decodeIdentity st.1.Identity m.2
    ({ st.1 with Identity := r.1 }, st.2 || r.2)
  | some "postion" =>
    let r := storePtr {} decodePostion st.1.Postion m.2
    ({ st.1 with Postion := r.1 }, st.2 || r.2)
  | _ => st

/-- The source's `var cs cursor; err1 := json.Unmarshal(info, &cs)`: the contents of `cs`
after the call, and whether `err1 != nil`.  Bytes that are not valid JSON leave `cs`
untouched and give an error; a top-level `null` is a no-op; a top-level value that is not an
object is a type error; type errors inside an object are recorded and decoding goes on. -/
def unmarshalCursor : Payload → cursor × Bool
  | .invalid => ({}, true)
  | .json .null => ({}, false)
  | .json (.object members) => members.foldl stepCursor ({}, false)
  | .json _ => ({}, true)

/-! ## The environment of one scan -/

/-- A reading of `time.Now()`: whole seconds since the epoch and the nanoseconds within the
second. -/
structure Time where
  sec : Int
  nsec : Nat
  deriving DecidableEq, Repr

/-- Go `Time.Unix()`: the whole seconds since the epoch. -/
def Time.Unix (t : Time) : Int := t.sec

/-- Go `Time.UnixMilli()`: the milliseconds since the epoch.  The source never calls it; the
specification's `now_ms` is this quantity. -/
def Time.UnixMilli (t : Time) : Int := t.sec * 1000 + (t.nsec / 1000000 : Nat)

/-- The wall clock of one scan: `clock k` is what the call of `time.Now()` that follows `k`
earlier calls returns. -/
abbrev Clock := Nat → Time

/-- An open ZooKeeper session, by what its calls return: `none` is a non-nil error. -/
structure Session where
  Children : String → Option (List String)
  Get : String → Option Payload

/-- The outcome of `zk.Connect`: a session and a nil error, or a nil client and an error. -/
inductive ConnectResult where
  | connected (zkclient : Session)
  | failed

/-- Struct `canalzk` of the source: one cluster descriptor. -/
structure canalzk where
  Clustername : String
  Zookeeper : String
  Chroot : String
  Filter : List String
  deriving DecidableEq, Repr

/-- How the goroutine running `collectNew` ends. -/
inductive Exit where
  /-- The function returned and its deferred `zkclient.Close()` ran on a live session. -/
  | returned
  /-- The function returned after a connect error and its deferred `zkclient.Close()` ran on
  the nil client. -/
  | closeOnNil
  /-- Evaluating `cs.Postion.Timestamp` with `cs.Postion == nil` panicked. -/
  | nilPostion
  deriving DecidableEq, Repr

/-- The observable result of one call of `collectNew`: the samples sent on `ch`, in order, and
how the call ended. -/
structure Run where
  emitted : List Sample
  exit : Exit
  deriving DecidableEq, Repr

/-- Put samples sent earlier in front of a run. -/
def Run.after (out : List Sample) (r : Run) : Run :=
  { r with emitted := out ++ r.emitted }

/-! ## `collector.collectNew` (`main.go` 107-184) -/

/-- The lag of line 180 before its conversion to float64:
`time.Now().Unix()*1000 - int64(cs.Postion.Timestamp)`, in `int64` arithmetic. -/
def lag (now : Time) (p : Postion) : Int :=
  wrapInt64 (wrapInt64 (now.Unix * 1000) - toInt64 p.Timestamp)

/-- One iteration of the loop `LABELFILTER` (lines 128-183) for the child `i`, when `k` calls
of `time.Now()` came before.  Returns the samples sent and, unless the iteration panics, the
number of `time.Now()` calls made so far.  The constant conversions `float64(0)` and
`float64(1)` are written `0` and `1`. -/
def iteration (czk : canalzk) (zkclient : Session) (clock : Clock) (k : Nat) (i : String) :
    List Sample × Option Nat :=
  if czk.Filter.any (fun f => i == f) then ([], some k)
  else
    match zkclient.Children (pathJoin [czk.Chroot, canalpath, i, "cluster"]) with
    | none => ([⟨.canalzk_cluster, 0, [czk.Clustername, i]⟩], some k)
    | some cl =>
      let running : Int :=
        match zkclient.Get (pathJoin [czk.Chroot, canalpath, i, "running"]) with
        | none => 1
        | some _ => 0
      let out : List Sample :=
        [⟨.canalzk_cluster, roundToFloat64 cl.length, [czk.Clustername, i]⟩,
         ⟨.canalzk_running, roundToFloat64 running, [czk.Clustername, i]⟩]
      match zkclient.Get (pathJoin [czk.Chroot, canalpath, i, "1001/cursor"]) with
      | none => (out, some k)
      | some info =>
        match (unmarshalCursor info).1.Postion with
        | none => (out, none)
        | some p =>
          (out ++ [⟨.canalzk_timestamp, roundToFloat64 (lag (clock k) p),
            [czk.Clustername, i]⟩], some (k + 1))

/-- The loop over `instances` (lines 127-183). -/
def scanInstances (czk : canalzk) (zkclient : Session) (clock : Clock) :
    Nat → List String → Run
  | _, [] => ⟨[], .returned⟩
  | k, i :: rest =>
    match iteration czk zkclient clock k i with
    | (out, none) => ⟨out, .nilPostion⟩
    | (out, some k1) => (scanInstances czk zkclient clock k1 rest).after out

/-- Method `collector.collectNew` of the source. -/
def collectNew (czk : canalzk) (conn : ConnectResult) (clock : Clock) : Run :=
  match conn with
  | .failed => ⟨[⟨.canalzk_up, 1, [czk.Clustername, czk.Zookeeper]⟩], .closeOnNil⟩
  | .connected zkclient =>
    match zkclient.Children (pathJoin [czk.Chroot, canalpath]) with
    | none => ⟨[], .returned⟩
    | some instances => scanInstances czk zkclient clock 0 instances

/-! ## Paths read by the scan -/

/-- The path whose children are the destinations (line 122). -/
def destinationsPath (czk : canalzk) : String :=
  pathJoin [czk.Chroot, canalpath]

/-- The path whose children are counted for destination `i` (line 136). -/
def clusterPath (czk : canalzk) (i : String) : String :=
  pathJoin [czk.Chroot, canalpath, i, "cluster"]

/-- The path of the `running` node of destination `i` (line 155). -/
def runningPath (czk : canalzk) (i : String) : String :=
  pathJoin [czk.Chroot, canalpath, i, "running"]

/-- The path of the cursor node of destination `i` (line 167). -/
def cursorPath (czk : canalzk) (i : String) : String :=
  pathJoin [czk.Chroot, canalpath, i, "1001/cursor"]

/-- The destination `i` is named by the descriptor's `Filter` (lines 130-134). -/
def excluded (czk : canalzk) (i : String) : Bool :=
  czk.Filter.any (fun f => i == f)

/-- Whether `zk.Connect` returned a non-nil error. -/
def ConnectResult.err : ConnectResult → Bool
  | .failed => true
  | .connected _ => false

/-! ## Vocabulary of the properties -/

/-- The samples of `l` labelled by the cluster name and the destination `d`. -/
def samplesFor (czk : canalzk) (d : String) (l : List Sample) : List Sample :=
  l.filter (fun s => decide (s.labelValues = [czk.Clustername, d]))

/-- The samples of `l` of the metric `m`. -/
def samplesOf (m : Desc) (l : List Sample) : List Sample :=
  l.filter (fun s => decide (s.desc = m))

/-- The number of calls of `time.Now()` behind the samples `l` of a stretch of the scan that
did not panic: the source calls `time.Now()` once for each `timestamp` sample it sends
(line 180) and nowhere else. -/
def nowCalls (l : List Sample) : Nat :=
  (samplesOf .canalzk_timestamp l).length

/-- Two samples agree in metric and labels, and in value unless they are `timestamp`
samples. -/
def sameUpToLag (s1 s2 : Sample) : Prop :=
  s1.desc = s2.desc ∧ s1.labelValues = s2.labelValues ∧
    (s1.desc ≠ .canalzk_timestamp → s1.value = s2.value)

/-! ## A sample deployment -/

/-- The descriptor of cluster `shard1`, rooted at `/prod`, which excludes `inst2`. -/
def shard1 : canalzk :=
  { Clustername := "shard1", Zookeeper := "zk1:2181", Chroot := "/prod", Filter := ["inst2"] }

/-- The cursor payload `{"postion":{"timestamp": T}}`. -/
def cursorAt (T : Int) : Payload :=
  .json (.object [("postion", .object [("timestamp", .number T)])])

/-- The content of a `running` node, `{"active":true}`. -/
def runningNode : Payload :=
  .json (.object [("active", .bool true)])

/-- A store for `shard1` with the destinations `inst1`, `inst2` and `inst3`.  Its parameters
are the outcome of listing the destinations, the outcome of listing `inst1/cluster` and the
payload of the cursor of `inst1`.  `inst1` and `inst2` have a readable `running` node, `inst2`
has one cluster member and the cursor `{"postion":{"timestamp":2000}}`, `inst3` has two
cluster members and neither a `running` node nor a cursor. -/
def store (instances cluster1 : Option (List String)) (cursor1 : Payload) : Session where
  Children := fun p =>
    if p = "/prod/otter/canal/destinations" then instances
    else if p = "/prod/otter/canal/destinations/inst1/cluster" then cluster1
    else if p = "/prod/otter/canal/destinations/inst2/cluster" then some ["n1"]
    else if p = "/prod/otter/canal/destinations/inst3/cluster" then some ["n1", "n2"]
    else none
  Get := fun p =>
    if p = "/prod/otter/canal/destinations/inst1/running" then some runningNode
    else if p = "/prod/otter/canal/destinations/inst1/1001/cursor" then some cursor1
    else if p = "/prod/otter/canal/destinations/inst2/running" then some runningNode
    else if p = "/prod/otter/canal/destinations/inst2/1001/cursor" then some (cursorAt 2000)
    else none

/-- The store that lists all three destinations, in which `inst1` has three cluster members
and the cursor payload `info`. -/
def withCursor (info : Payload) : Session :=
  store (some ["inst1", "inst2", "inst3"]) (some ["n1", "n2", "n3"]) info

/-- The store in which all of `inst1` is readable and its cursor is
`{"postion":{"timestamp":1000}}`. -/
def healthy : Session := withCursor (cursorAt 1000)

/-- The store in which listing `inst1/cluster` fails. -/
def noCluster : Session :=
  store (some ["inst1", "inst2", "inst3"]) none (cursorAt 1000)

/-- The store in which the cursor of `inst1` holds a timestamp close to the smallest int64,
`{"postion":{"timestamp":-9223370336854775808}}`. -/
def farPast : Session := withCursor (cursorAt (-9223370336854775808))

/-- The cursor payload `{}`. -/
def emptyObject : Payload := .json (.object [])

/-- The cursor payload `{"postion":null}`. -/
def nullPostion : Payload := .json (.object [("postion", .null)])

/-- The cursor payload `{"postion":{"timestamp":"x"}}`, whose timestamp is a string. -/
def textTimestamp : Payload :=
  .json (.object [("postion", .object [("timestamp", .string "x")])])

/-- A clock that stands at `sec` seconds and `nsec` nanoseconds. -/
def clockAt (sec : Int) (nsec : Nat) : Clock := fun _ => ⟨sec, nsec⟩

/-! ## Basic facts about one iteration -/

theorem excluded_iff (czk : canalzk) (i : String) : excluded czk i = true ↔ i ∈ czk.Filter := by
  simp [excluded, List.any_eq_true]

theorem iteration_excluded (czk : canalzk) (z : Session) (clock : Clock) (k : Nat) (i : String)
    (h : excluded czk i = true) : iteration czk z clock k i = ([], some k) := by
  unfold excluded at h
  simp [iteration, h]

/-- What one iteration does, by cases on the three reads. -/
theorem iteration_cases (czk : canalzk) (z : Session) (i : String)
    (h : excluded czk i = false) :
    (z.Children (clusterPath czk i) = none ∧ ∀ (clock : Clock) (k : Nat),
      iteration czk z clock k i = ([⟨.canalzk_cluster, 0, [czk.Clustername, i]⟩], some k)) ∨
    (∃ cl, z.Children (clusterPath czk i) = some cl ∧
      ((z.Get (cursorPath czk i) = none ∧ ∀ (clock : Clock) (k : Nat),
        iteration czk z clock k i =
          ([⟨.canalzk_cluster, roundToFloat64 cl.length, [czk.Clustername, i]⟩,
            ⟨.canalzk_running, if (z.Get (runningPath czk i)).isSome then 0 else 1,
              [czk.Clustername, i]⟩], some k)) ∨
       (∃ info, z.Get (cursorPath czk i) = some info ∧
          (unmarshalCursor info).1.Postion = none ∧ ∀ (clock : Clock) (k : Nat),
          iteration czk z clock k i =
            ([⟨.canalzk_cluster, roundToFloat64 cl.length, [czk.Clustername, i]⟩,
              ⟨.canalzk_running, if (z.Get (runningPath czk i)).isSome then 0 else 1,
                [czk.Clustername, i]⟩], none)) ∨
       (∃ info p, z.Get (cursorPath czk i) = some info ∧
          (unmarshalCursor info).1.Postion = some p ∧ ∀ (clock : Clock) (k : Nat),
          iteration czk z clock k i =
            ([⟨.canalzk_cluster, roundToFloat64 cl.length, [czk.Clustername, i]⟩,
              ⟨.canalzk_running, if (z.Get (runningPath czk i)).isSome then 0 else 1,
                [czk.Clustername, i]⟩,
              ⟨.canalzk_timestamp, roundToFloat64 (lag (clock k) p), [czk.Clustername, i]⟩],
              some (k + 1))))) := by
  unfold excluded at h
  unfold clusterPath cursorPath runningPath
  cases hc : z.Children (pathJoin [czk.Chroot, canalpath, i, "cluster"]) with
  | none => left; exact ⟨rfl, fun clock k => by simp [iteration, h, hc]⟩
  | some cl =>
    right
    refine ⟨cl, rfl, ?_⟩
    have hr : roundToFloat64 (match z.Get (pathJoin [czk.Chroot, canalpath, i, "running"]) with
        | none => (1 : Int) | some _ => 0)
        = if (z.Get (pathJoin [czk.Chroot, canalpath, i, "running"])).isSome then 0 else 1 := by
      cases z.Get (pathJoin [czk.Chroot, canalpath, i, "running"]) with
      | none => decide
      | some _ => exact (by decide : roundToFloat64 0 = 0)
    cases hg : z.Get (pathJoin [czk.Chroot, canalpath, i, "1001/cursor"]) with
    | none => left; exact ⟨rfl, fun clock k => by simp [iteration, h, hc, hg, hr]⟩
    | some info =>
      right
      cases hp : (unmarshalCursor info).1.Postion with
      | none =>
        left
        exact ⟨info, rfl, hp, fun clock k => by simp [iteration, h, hc, hg, hr, hp]⟩
      | some p =>
        right
        exact ⟨info, p, rfl, hp, fun clock k => by simp [iteration, h, hc, hg, hr, hp]⟩

/-- Every sample of an iteration is labelled by the cluster name and the iteration's child,
which is not excluded, and is no `up` sample. -/
theorem iteration_samples (czk : canalzk) (z : Session) (clock : Clock) (k : Nat) (i : String)
    (s : Sample) (hs : s ∈ (iteration czk z clock k i).1) :
    excluded czk i = false ∧ s.labelValues = [czk.Clustername, i] ∧ s.desc ≠ .canalzk_up := by
  cases hx : excluded czk i with
  | true => rw [iteration_excluded czk z clock k i hx] at hs; simp at hs
  | false =>
    refine ⟨rfl, ?_⟩
    rcases iteration_cases czk z i hx with
      ⟨_, h⟩ | ⟨cl, _, ⟨_, h⟩ | ⟨info, _, _, h⟩ | ⟨info, p, _, _, h⟩⟩ <;>
    · rw [h clock k] at hs
      simp only [List.mem_cons, List.mem_singleton, List.not_mem_nil, or_false] at hs
      rcases hs with rfl | rfl | rfl <;> simp

/-- An iteration sends at most one sample of each metric. -/
theorem samplesOf_iteration_length (czk : canalzk) (z : Session) (clock : Clock) (k : Nat)
    (i : String) (m : Desc) : (samplesOf m (iteration czk z clock k i).1).length ≤ 1 := by
  cases hx : excluded czk i with
  | true => rw [iteration_excluded czk z clock k i hx]; simp [samplesOf]
  | false =>
    rcases iteration_cases czk z i hx with
      ⟨_, h⟩ | ⟨cl, _, ⟨_, h⟩ | ⟨info, _, _, h⟩ | ⟨info, p, _, _, h⟩⟩ <;>
    · rw [h clock k]
      cases m <;> simp [samplesOf]

/-- Two iterations that differ only in the clock take the same path and send samples related
by any relation that holds between equal non-lag samples and between the two lag samples. -/
theorem iteration_rel (R : Sample → Sample → Prop) (czk : canalzk) (z : Session)
    (c1 c2 : Clock) (k : Nat) (i : String)
    (hrefl : ∀ s : Sample, s.desc ≠ .canalzk_timestamp → R s s)
    (hlag : ∀ info p, z.Get (cursorPath czk i) = some info →
      (unmarshalCursor info).1.Postion = some p →
      R ⟨.canalzk_timestamp, roundToFloat64 (lag (c1 k) p), [czk.Clustername, i]⟩
        ⟨.canalzk_timestamp, roundToFloat64 (lag (c2 k) p), [czk.Clustername, i]⟩) :
    (iteration czk z c1 k i).2 = (iteration czk z c2 k i).2 ∧
      List.Forall₂ R (iteration czk z c1 k i).1 (iteration czk z c2 k i).1 := by
  cases hx : excluded czk i with
  | true =>
    rw [iteration_excluded czk z c1 k i hx, iteration_excluded czk z c2 k i hx]
    exact ⟨rfl, List.Forall₂.nil⟩
  | false =>
    rcases iteration_cases czk z i hx with
      ⟨_, h⟩ | ⟨cl, _, ⟨_, h⟩ | ⟨info, _, _, h⟩ | ⟨info, p, hg, hp, h⟩⟩
    · rw [h c1 k, h c2 k]
      exact ⟨rfl, List.Forall₂.cons (hrefl _ (by simp)) List.Forall₂.nil⟩
    · rw [h c1 k, h c2 k]
      exact ⟨rfl, List.Forall₂.cons (hrefl _ (by simp))
        (List.Forall₂.cons (hrefl _ (by simp)) List.Forall₂.nil)⟩
    · rw [h c1 k, h c2 k]
      exact ⟨rfl, List.Forall₂.cons (hrefl _ (by simp))
        (List.Forall₂.cons (hrefl _ (by simp)) List.Forall₂.nil)⟩
    · rw [h c1 k, h c2 k]
      exact ⟨rfl, List.Forall₂.cons (hrefl _ (by simp))
        (List.Forall₂.cons (hrefl _ (by simp))
          (List.Forall₂.cons (hlag info p hg hp) List.Forall₂.nil))⟩

/-! ## Basic facts about the loop -/

theorem scanInstances_cons_none (czk : canalzk) (z : Session) (clock : Clock) (k : Nat)
    (i : String) (rest : List String) (out : List Sample)
    (h : iteration czk z clock k i = (out, none)) :
    scanInstances czk z clock k (i :: rest) = ⟨out, .nilPostion⟩ := by
  simp [scanInstances, h]

theorem scanInstances_cons_some (czk : canalzk) (z : Session) (clock : Clock) (k k1 : Nat)
    (i : String) (rest : List String) (out : List Sample)
    (h : iteration czk z clock k i = (out, some k1)) :
    scanInstances czk z clock k (i :: rest) = (scanInstances czk z clock k1 rest).after out := by
  simp [scanInstances, h]

/-- Every sample of the loop belongs to a listed, non-excluded child. -/
theorem scanInstances_samples (czk : canalzk) (z : Session) (clock : Clock)
    (insts : List String) : ∀ (k : Nat) (s : Sample),
    s ∈ (scanInstances czk z clock k insts).emitted →
    ∃ i ∈ insts, excluded czk i = false ∧ s.labelValues = [czk.Clustername, i] ∧
      s.desc ≠ .canalzk_up := by
  induction insts with
  | nil => intro k s hs; simp [scanInstances] at hs
  | cons i rest ih =>
    intro k s hs
    cases hit : iteration czk z clock k i with
    | mk out next =>
      have hout : ∀ t ∈ out, excluded czk i = false ∧ t.labelValues = [czk.Clustername, i] ∧
          t.desc ≠ .canalzk_up := by
        intro t ht
        exact iteration_samples czk z clock k i t (by rw [hit]; exact ht)
      cases next with
      | none =>
        rw [scanInstances_cons_none czk z clock k i rest out hit] at hs
        exact ⟨i, List.mem_cons_self _ _, hout s hs⟩
      | some k1 =>
        rw [scanInstances_cons_some czk z clock k k1 i rest out hit] at hs
        simp only [Run.after, List.mem_append] at hs
        rcases hs with hs | hs
        · exact ⟨i, List.mem_cons_self _ _, hout s hs⟩
        · obtain ⟨j, hj, hrest⟩ := ih k1 s hs
          exact ⟨j, List.mem_cons_of_mem _ hj, hrest⟩

/-- Excluded children do not change the loop. -/
theorem scanInstances_filter_excluded (czk : canalzk) (z : Session) (clock : Clock) (d : String)
    (hd : excluded czk d = true) (insts : List String) : ∀ k : Nat,
    scanInstances czk z clock k (insts.filter (fun i => decide (i ≠ d))) =
      scanInstances czk z clock k insts := by
  induction insts with
  | nil => intro k; rfl
  | cons i rest ih =>
    intro k
    by_cases hid : i = d
    · subst hid
      have hf : (i :: rest).filter (fun j => decide (j ≠ i)) =
          rest.filter (fun j => decide (j ≠ i)) := by simp
      rw [hf, ih k,
        scanInstances_cons_some czk z clock k k i rest [] (iteration_excluded czk z clock k i hd)]
      rfl
    · have hf : (i :: rest).filter (fun i => decide (i ≠ d)) =
          i :: rest.filter (fun i => decide (i ≠ d)) := by simp [hid]
      rw [hf]
      cases hit : iteration czk z clock k i with
      | mk out next =>
        cases next with
        | none =>
          rw [scanInstances_cons_none czk z clock k i _ out hit,
            scanInstances_cons_none czk z clock k i _ out hit]
        | some k1 =>
          rw [scanInstances_cons_some czk z clock k k1 i _ out hit,
            scanInstances_cons_some czk z clock k k1 i _ out hit, ih k1]

/-- The loop depends on the session only through the reads it makes. -/
theorem scanInstances_congr (czk : canalzk) (z z1 : Session) (clock : Clock)
    (hget : z1.Get = z.Get) (insts : List String) : ∀ k : Nat,
    (∀ i ∈ insts, z1.Children (clusterPath czk i) = z.Children (clusterPath czk i)) →
    scanInstances czk z1 clock k insts = scanInstances czk z clock k insts := by
  induction insts with
  | nil => intro k _; rfl
  | cons i rest ih =>
    intro k hcl
    have hit : iteration czk z1 clock k i = iteration czk z clock k i := by
      have h := hcl i (List.mem_cons_self _ _)
      unfold clusterPath at h
      simp only [iteration, hget, h]
    simp only [scanInstances, hit]
    cases iteration czk z clock k i with
    | mk out next =>
      cases next with
      | none => rfl
      | some k1 => simp only [ih k1 (fun j hj => hcl j (List.mem_cons_of_mem _ hj))]

/-- Two loops that differ only in the clock end the same way and send related samples. -/
theorem scanInstances_rel (R : Sample → Sample → Prop) (czk : canalzk) (z : Session)
    (c1 c2 : Clock) (hrefl : ∀ s : Sample, s.desc ≠ .canalzk_timestamp → R s s)
    (hlag : ∀ k i info p, z.Get (cursorPath czk i) = some info →
      (unmarshalCursor info).1.Postion = some p →
      R ⟨.canalzk_timestamp, roundToFloat64 (lag (c1 k) p), [czk.Clustername, i]⟩
        ⟨.canalzk_timestamp, roundToFloat64 (lag (c2 k) p), [czk.Clustername, i]⟩)
    (insts : List String) : ∀ k : Nat,
    (scanInstances czk z c1 k insts).exit = (scanInstances czk z c2 k insts).exit ∧
      List.Forall₂ R (scanInstances czk z c1 k insts).emitted
        (scanInstances czk z c2 k insts).emitted := by
  induction insts with
  | nil => intro k; exact ⟨rfl, List.Forall₂.nil⟩
  | cons i rest ih =>
    intro k
    obtain ⟨hnext, hout⟩ := iteration_rel R czk z c1 c2 k i hrefl (hlag k i)
    cases h1 : iteration czk z c1 k i with
    | mk out1 next1 =>
      cases h2 : iteration czk z c2 k i with
      | mk out2 next2 =>
        rw [h1, h2] at hnext hout
        simp only at hnext hout
        subst hnext
        cases next1 with
        | none =>
          rw [scanInstances_cons_none czk z c1 k i rest out1 h1,
            scanInstances_cons_none czk z c2 k i rest out2 h2]
          exact ⟨rfl, hout⟩
        | some k1 =>
          rw [scanInstances_cons_some czk z c1 k k1 i rest out1 h1,
            scanInstances_cons_some czk z c2 k k1 i rest out2 h2]
          exact ⟨(ih k1).1, List.rel_append hout (ih k1).2⟩

theorem label_destination (s : Sample) (c i : String) (hl : s.labelValues = [c, i])
    (hu : s.desc ≠ .canalzk_up) : s.label "destination" = some i := by
  cases s with
  | mk desc value labelValues =>
    simp only at hl hu
    subst hl
    cases desc <;> first | exact absurd rfl hu | rfl

/-! ## The samples of one destination -/

theorem samplesFor_append (czk : canalzk) (d : String) (l1 l2 : List Sample) :
    samplesFor czk d (l1 ++ l2) = samplesFor czk d l1 ++ samplesFor czk d l2 := by
  simp [samplesFor]

theorem samplesFor_iteration_self (czk : canalzk) (z : Session) (clock : Clock) (k : Nat)
    (d : String) :
    samplesFor czk d (iteration czk z clock k d).1 = (iteration czk z clock k d).1 := by
  unfold samplesFor
  rw [List.filter_eq_self]
  intro s hs
  simp [(iteration_samples czk z clock k d s hs).2.1]

theorem samplesFor_iteration_other (czk : canalzk) (z : Session) (clock : Clock) (k : Nat)
    (i d : String) (hid : i ≠ d) :
    samplesFor czk d (iteration czk z clock k i).1 = [] := by
  unfold samplesFor
  rw [List.filter_eq_nil_iff]
  intro s hs
  simp [(iteration_samples czk z clock k i s hs).2.1, hid]

theorem samplesFor_scanInstances_absent (czk : canalzk) (z : Session) (clock : Clock) (k : Nat)
    (d : String) (insts : List String) (hd : d ∉ insts) :
    samplesFor czk d (scanInstances czk z clock k insts).emitted = [] := by
  unfold samplesFor
  rw [List.filter_eq_nil_iff]
  intro s hs
  obtain ⟨i, hi, _, hl, _⟩ := scanInstances_samples czk z clock insts k s hs
  have hid : i ≠ d := fun h => hd (h ▸ hi)
  simp [hl, hid]

/-- In a scan that returns, the samples for a destination listed once are those of its one
iteration, which does not panic. -/
theorem samplesFor_scanInstances (czk : canalzk) (z : Session) (clock : Clock) (d : String)
    (insts : List String) : ∀ k : Nat,
    (scanInstances czk z clock k insts).exit = .returned → insts.Nodup → d ∈ insts →
    ∃ kd k1, iteration czk z clock kd d =
        (samplesFor czk d (scanInstances czk z clock k insts).emitted, some k1) := by
  induction insts with
  | nil => intro k _ _ hd; simp at hd
  | cons i rest ih =>
    intro k hexit hnd hd
    rw [List.nodup_cons] at hnd
    cases hit : iteration czk z clock k i with
    | mk out next =>
      cases next with
      | none =>
        rw [scanInstances_cons_none czk z clock k i rest out hit] at hexit
        simp at hexit
      | some k1 =>
        rw [scanInstances_cons_some czk z clock k k1 i rest out hit] at hexit ⊢
        simp only [Run.after] at hexit ⊢
        rw [samplesFor_append]
        have hout : out = (iteration czk z clock k i).1 := by rw [hit]
        by_cases hid : i = d
        · subst hid
          refine ⟨k, k1, ?_⟩
          rw [samplesFor_scanInstances_absent czk z clock k1 i rest hnd.1, hout,
            samplesFor_iteration_self, hit]
          simp
        · have hmem : d ∈ rest := by
            rcases List.mem_cons.mp hd with h | h
            · exact absurd h.symm hid
            · exact h
          obtain ⟨kd, k2, h⟩ := ih k1 hexit hnd.2 hmem
          refine ⟨kd, k2, ?_⟩
          rw [hout, samplesFor_iteration_other czk z clock k i d hid, h]
          simp

theorem nowCalls_append (l1 l2 : List Sample) :
    nowCalls (l1 ++ l2) = nowCalls l1 + nowCalls l2 := by
  simp [nowCalls, samplesOf]

/-- An iteration that does not panic calls `time.Now()` once for each `timestamp` sample it
sends. -/
theorem iteration_next (czk : canalzk) (z : Session) (clock : Clock) (k k1 : Nat) (i : String)
    (out : List Sample) (h : iteration czk z clock k i = (out, some k1)) :
    k1 = k + nowCalls out := by
  cases hx : excluded czk i with
  | true =>
    rw [iteration_excluded czk z clock k i hx] at h
    cases h
    simp [nowCalls, samplesOf]
  | false =>
    rcases iteration_cases czk z i hx with
      ⟨_, h1⟩ | ⟨cl, _, ⟨_, h1⟩ | ⟨info, _, _, h1⟩ | ⟨info, p, _, _, h1⟩⟩ <;>
    · rw [h1 clock k] at h
      cases h <;> simp [nowCalls, samplesOf]

/-- In a scan that returns, the samples of a destination listed once are those of its one
iteration, which runs after as many calls of `time.Now()` as there are `timestamp` samples
before it; no other sample is labelled by the destination. -/
theorem scanInstances_split (czk : canalzk) (z : Session) (clock : Clock) (d : String)
    (insts : List String) : ∀ k : Nat,
    (scanInstances czk z clock k insts).exit = .returned → insts.Nodup → d ∈ insts →
    ∃ before after out k1,
      (scanInstances czk z clock k insts).emitted = before ++ out ++ after ∧
      iteration czk z clock (k + nowCalls before) d = (out, some k1) ∧
      samplesFor czk d before = [] ∧ samplesFor czk d after = [] := by
  induction insts with
  | nil => intro k _ _ hd; simp at hd
  | cons i rest ih =>
    intro k hexit hnd hd
    rw [List.nodup_cons] at hnd
    cases hit : iteration czk z clock k i with
    | mk out next =>
      cases next with
      | none =>
        rw [scanInstances_cons_none czk z clock k i rest out hit] at hexit
        simp at hexit
      | some k1 =>
        rw [scanInstances_cons_some czk z clock k k1 i rest out hit] at hexit ⊢
        simp only [Run.after] at hexit ⊢
        have hout : out = (iteration czk z clock k i).1 := by rw [hit]
        by_cases hid : i = d
        · subst hid
          refine ⟨[], (scanInstances czk z clock k1 rest).emitted, out, k1, by simp, ?_, rfl,
            samplesFor_scanInstances_absent czk z clock k1 i rest hnd.1⟩
          simpa [nowCalls, samplesOf] using hit
        · have hmem : d ∈ rest := by
            rcases List.mem_cons.mp hd with h | h
            · exact absurd h.symm hid
            · exact h
          obtain ⟨b, a, o, k2, hem, hiter, hb, ha⟩ := ih k1 hexit hnd.2 hmem
          refine ⟨out ++ b, a, o, k2, by simp [hem], ?_, ?_, ha⟩
          · rw [nowCalls_append, ← Nat.add_assoc,
              ← iteration_next czk z clock k k1 i out hit]
            exact hiter
          · rw [samplesFor_append, hb, hout, samplesFor_iteration_other czk z clock k i d hid]
            rfl

/-- With pairwise distinct children the loop sends at most one sample of each metric for each
destination. -/
theorem samplesOf_samplesFor_scanInstances_length (czk : canalzk) (z : Session) (clock : Clock)
    (m : Desc) (d : String) (insts : List String) : ∀ k : Nat, insts.Nodup →
    (samplesOf m (samplesFor czk d (scanInstances czk z clock k insts).emitted)).length ≤ 1 := by
  induction insts with
  | nil => intro k _; simp [scanInstances, samplesFor, samplesOf]
  | cons i rest ih =>
    intro k hnd
    rw [List.nodup_cons] at hnd
    have hself : ∀ out (next : Option Nat), iteration czk z clock k i = (out, next) →
        (samplesOf m (samplesFor czk d out)).length ≤ 1 := by
      intro out next hit
      have hout : out = (iteration czk z clock k i).1 := by rw [hit]
      by_cases hid : i = d
      · subst hid
        rw [hout, samplesFor_iteration_self]
        exact samplesOf_iteration_length czk z clock k i m
      · rw [hout, samplesFor_iteration_other czk z clock k i d hid]
        simp [samplesOf]
    cases hit : iteration czk z clock k i with
    | mk out next =>
      cases next with
      | none =>
        rw [scanInstances_cons_none czk z clock k i rest out hit]
        exact hself out none hit
      | some k1 =>
        rw [scanInstances_cons_some czk z clock k k1 i rest out hit]
        simp only [Run.after]
        rw [samplesFor_append]
        have hout : out = (iteration czk z clock k i).1 := by rw [hit]
        by_cases hid : i = d
        · subst hid
          rw [samplesFor_scanInstances_absent czk z clock k1 i rest hnd.1, List.append_nil]
          exact hself out (some k1) hit
        · rw [hout, samplesFor_iteration_other czk z clock k i d hid, List.nil_append]
          exact ih k1 hnd.2

/-! ## Arithmetic of the lag -/

theorem wrapInt64_of_range (x : Int) (h1 : -(2 : Int) ^ 63 ≤ x) (h2 : x < 2 ^ 63) :
    wrapInt64 x = x := by
  unfold wrapInt64
  have h : (x + 2 ^ 63) % 2 ^ 64 = x + 2 ^ 63 := Int.emod_eq_of_lt (by omega) (by omega)
  omega

theorem bitLenAux_le (fuel : Nat) : ∀ (n b : Nat), n < 2 ^ b → bitLenAux fuel n ≤ b := by
  induction fuel with
  | zero => intro n b _; simp [bitLenAux]
  | succ f ih =>
    intro n b hn
    unfold bitLenAux
    split
    · exact Nat.zero_le _
    · rename_i hne
      cases b with
      | zero => simp at hn; exact absurd hn hne
      | succ b =>
        have : n / 2 < 2 ^ b := by
          rw [Nat.div_lt_iff_lt_mul (by decide)]
          rw [Nat.pow_succ] at hn
          exact hn
        exact Nat.succ_le_succ (ih (n / 2) b this)

theorem lt_two_pow_bitLenAux (fuel : Nat) : ∀ n : Nat, n ≤ fuel → n < 2 ^ bitLenAux fuel n := by
  induction fuel with
  | zero => intro n hn; simp [bitLenAux]; omega
  | succ f ih =>
    intro n hn
    unfold bitLenAux
    split
    · rename_i h0; subst h0; simp
    · rename_i hne
      have h := ih (n / 2) (by omega)
      rw [Nat.pow_succ]
      omega

theorem two_pow_bitLenAux_le (fuel : Nat) : ∀ n : Nat, n ≠ 0 → n ≤ fuel →
    2 ^ (bitLenAux fuel n - 1) ≤ n := by
  induction fuel with
  | zero => intro n hne hn; omega
  | succ f ih =>
    intro n hne hn
    unfold bitLenAux
    rw [if_neg hne, Nat.add_sub_cancel]
    by_cases h2 : n / 2 = 0
    · have : bitLenAux f (n / 2) = 0 := by
        rw [h2]; cases f <;> simp [bitLenAux]
      rw [this]; simp; omega
    · have h := ih (n / 2) h2 (by omega)
      have hpos : 1 ≤ bitLenAux f (n / 2) := by
        cases f with
        | zero => omega
        | succ g => unfold bitLenAux; rw [if_neg h2]; omega
      have : bitLenAux f (n / 2) = (bitLenAux f (n / 2) - 1) + 1 := by omega
      rw [this, Nat.pow_succ]
      omega

theorem lt_two_pow_bitLen (n : Nat) : n < 2 ^ bitLen n :=
  lt_two_pow_bitLenAux n n (Nat.le_refl n)

theorem two_pow_bitLen_le (n : Nat) (h : n ≠ 0) : 2 ^ (bitLen n - 1) ≤ n :=
  two_pow_bitLenAux_le n n h (Nat.le_refl n)

theorem bitLen_mono (a b : Nat) (h : a ≤ b) : bitLen a ≤ bitLen b := by
  by_cases ha : a = 0
  · subst ha; simp [bitLen, bitLenAux]
  · have h1 := two_pow_bitLen_le a ha
    have h2 := lt_two_pow_bitLen b
    have h3 : 2 ^ (bitLen a - 1) < 2 ^ bitLen b := by omega
    have h4 := (Nat.pow_lt_pow_iff_right (by decide : 1 < 2)).mp h3
    omega

/-- The shape of a rounded magnitude above `2 ^ 53`. -/
theorem roundMag_bounds (a : Nat) (h : 2 ^ 53 ≤ a) :
    54 ≤ bitLen a ∧ 2 ^ (bitLen a - 1) ≤ roundMag a ∧ roundMag a ≤ 2 ^ bitLen a := by
  have hlt := lt_two_pow_bitLen a
  have hle := two_pow_bitLen_le a (by omega)
  have hL : 54 ≤ bitLen a := by
    have h3 : 2 ^ 53 < 2 ^ bitLen a := by omega
    have h4 := (Nat.pow_lt_pow_iff_right (by decide : 1 < 2)).mp h3
    omega
  refine ⟨hL, ?_, ?_⟩
  all_goals
    obtain ⟨e, he⟩ : ∃ e, bitLen a = e + 53 := ⟨bitLen a - 53, by omega⟩
    have hP : 0 < 2 ^ e := Nat.pow_pos (by decide)
    have hq1 : 2 ^ 52 ≤ a / 2 ^ e := by
      rw [Nat.le_div_iff_mul_le hP, ← Nat.pow_add]
      have : e + 53 - 1 = 52 + e := by omega
      rw [he, this] at hle
      exact hle
    have hq2 : a / 2 ^ e < 2 ^ 53 := by
      rw [Nat.div_lt_iff_lt_mul hP, ← Nat.pow_add]
      have : e + 53 = 53 + e := by omega
      rw [he, this] at hlt
      exact hlt
    unfold roundMag
    rw [if_neg (by omega)]
    simp only [he, Nat.add_sub_cancel]
  · have : 2 ^ (e + 53 - 1) = 2 ^ 52 * 2 ^ e := by
      rw [← Nat.pow_add]; congr 1; omega
    rw [this]
    apply Nat.mul_le_mul_right
    split_ifs <;> omega
  · have : 2 ^ (e + 53) = 2 ^ 53 * 2 ^ e := by
      rw [← Nat.pow_add]; congr 1; omega
    rw [this]
    apply Nat.mul_le_mul_right
    split_ifs <;> omega

/-- Rounding to the nearest float64 keeps the order of magnitudes. -/
theorem roundMag_mono (a b : Nat) (h : a ≤ b) : roundMag a ≤ roundMag b := by
  by_cases hb : b < 2 ^ 53
  · unfold roundMag
    rw [if_pos hb, if_pos (by omega)]
    exact h
  · have hb1 : 2 ^ 53 ≤ b := by omega
    obtain ⟨hLb, hlowb, _⟩ := roundMag_bounds b hb1
    by_cases ha : a < 2 ^ 53
    · have h53 : 2 ^ 53 ≤ 2 ^ (bitLen b - 1) :=
        Nat.pow_le_pow_right (by decide) (by omega)
      have : roundMag a = a := by unfold roundMag; rw [if_pos ha]
      omega
    · have ha1 : 2 ^ 53 ≤ a := by omega
      obtain ⟨hLa, _, hupa⟩ := roundMag_bounds a ha1
      have hmono := bitLen_mono a b h
      by_cases hlen : bitLen a < bitLen b
      · have : 2 ^ bitLen a ≤ 2 ^ (bitLen b - 1) :=
          Nat.pow_le_pow_right (by decide) (by omega)
        omega
      · have heq : bitLen a = bitLen b := by omega
        unfold roundMag
        rw [if_neg ha, if_neg hb]
        simp only [heq]
        generalize hP : 2 ^ (bitLen b - 53) = P
        generalize hH : 2 ^ (bitLen b - 53 - 1) = H
        apply Nat.mul_le_mul_right
        have hq : a / P ≤ b / P := Nat.div_le_div_right h
        by_cases hlt : a / P < b / P
        · split_ifs <;> omega
        · have hqe : a / P = b / P := by omega
          have hr : a % P ≤ b % P := by
            have h1 := Nat.div_add_mod a P
            have h2 := Nat.div_add_mod b P
            rw [hqe] at h1
            have : P * (b / P) + a % P ≤ P * (b / P) + b % P := by omega
            exact Nat.le_of_add_le_add_left this
          rw [hqe]
          split_ifs with c1 c2 <;> omega

/-- Rounding to the nearest float64 keeps the order. -/
theorem roundToFloat64_mono (x y : Int) (h : x ≤ y) : roundToFloat64 x ≤ roundToFloat64 y := by
  unfold roundToFloat64
  split_ifs with hx hy
  · have := roundMag_mono y.natAbs x.natAbs (by omega)
    omega
  · omega
  · omega
  · have := roundMag_mono x.natAbs y.natAbs (by omega)
    omega

/-- An integer below `2 ^ 53` in absolute value is its own float64. -/
theorem roundToFloat64_exact (x : Int) (h : x.natAbs < 2 ^ 53) : roundToFloat64 x = x := by
  unfold roundToFloat64 roundMag
  rw [if_pos h]
  split_ifs <;> omega


theorem roundToFloat64_zero : roundToFloat64 0 = 0 := by decide

/-- An integer below `2 ^ 53` in absolute value is stored in a `float64` field exactly. -/
theorem storeFloat64_exact (old : Int) (T : Int) (hT : T.natAbs < 2 ^ 53) :
    storeFloat64 old (.number T) = (T, false) := by
  have hr : roundToFloat64 T = T := roundToFloat64_exact T hT
  have hb : bitLen T.natAbs ≤ 1024 :=
    Nat.le_trans (bitLenAux_le _ _ 53 hT) (by decide)
  simp [storeFloat64, hr, hb]

/-- Decoding `{"postion":{"timestamp": T}}` succeeds and yields the timestamp `T`. -/
theorem unmarshalCursor_cursorAt (T : Int) (hT : T.natAbs < 2 ^ 53) :
    unmarshalCursor (cursorAt T) = ({ Postion := some { Timestamp := T } }, false) := by
  have h1 : findField ["@type", "identity", "postion"] "postion" = some "postion" := by decide
  have h2 : findField ["gtid", "included", "journalName", "position", "serverId", "timestamp"]
      "timestamp" = some "timestamp" := by decide
  simp [cursorAt, unmarshalCursor, stepCursor, h1, storePtr, decodePostion, stepPostion, h2,
    storeFloat64_exact _ T hT]

/-- Without overflow the lag is the plain difference. -/
theorem lag_of_range (now : Time) (p : Postion)
    (hs : -(2 : Int) ^ 50 ≤ now.sec ∧ now.sec ≤ 2 ^ 50)
    (hp : -(2 : Int) ^ 62 ≤ p.Timestamp ∧ p.Timestamp ≤ 2 ^ 62) :
    lag now p = now.sec * 1000 - p.Timestamp := by
  unfold lag Time.Unix toInt64
  rw [if_pos (by omega)]
  rw [wrapInt64_of_range (now.sec * 1000) (by omega) (by omega)]
  exact wrapInt64_of_range _ (by omega) (by omega)

/-! ## The scan after a successful connect -/

theorem collectNew_listing_error (czk : canalzk) (z : Session) (clock : Clock)
    (h : z.Children (destinationsPath czk) = none) :
    collectNew czk (.connected z) clock = ⟨[], .returned⟩ := by
  unfold destinationsPath at h
  simp [collectNew, h]

theorem collectNew_listed (czk : canalzk) (z : Session) (clock : Clock) (insts : List String)
    (h : z.Children (destinationsPath czk) = some insts) :
    collectNew czk (.connected z) clock = scanInstances czk z clock 0 insts := by
  unfold destinationsPath at h
  simp [collectNew, h]

/-- After a successful connect every sample belongs to a non-excluded destination and is no
`up` sample. -/
theorem collectNew_connected_samples (czk : canalzk) (z : Session) (clock : Clock) (s : Sample)
    (hs : s ∈ (collectNew czk (.connected z) clock).emitted) :
    ∃ i, excluded czk i = false ∧ s.labelValues = [czk.Clustername, i] ∧
      s.desc ≠ .canalzk_up := by
  cases hl : z.Children (destinationsPath czk) with
  | none => rw [collectNew_listing_error czk z clock hl] at hs; simp at hs
  | some insts =>
    rw [collectNew_listed czk z clock insts hl] at hs
    obtain ⟨i, _, h⟩ := scanInstances_samples czk z clock insts 0 s hs
    exact ⟨i, h⟩

theorem excluded_eq_false (czk : canalzk) (d : String) (hx : d ∉ czk.Filter) :
    excluded czk d = false := by
  cases h : excluded czk d with
  | false => rfl
  | true => exact absurd ((excluded_iff czk d).mp h) hx

/-- In a scan that returns, the samples for a non-excluded destination listed once are those
of one iteration for it. -/
theorem collectNew_samplesFor (czk : canalzk) (z : Session) (clock : Clock)
    (insts : List String) (d : String)
    (hl : z.Children (destinationsPath czk) = some insts) (hnd : insts.Nodup) (hd : d ∈ insts)
    (hexit : (collectNew czk (.connected z) clock).exit = .returned) :
    ∃ kd k1, iteration czk z clock kd d =
      (samplesFor czk d (collectNew czk (.connected z) clock).emitted, some k1) := by
  rw [collectNew_listed czk z clock insts hl] at hexit ⊢
  exact samplesFor_scanInstances czk z clock d insts 0 hexit hnd hd

/-! ## Connect and listing failures -/

/-- C1: when `zk.Connect` returns an error the scan sends exactly one sample, `up` with value
1 and labels (Clustername, Zookeeper), hence no `cluster`, `running` or `timestamp` sample;
when connect succeeds the scan sends no `up` sample, whatever the store holds. -/
theorem connect_error_emits_only_up (czk : canalzk) (clock : Clock) :
    (collectNew czk .failed clock).emitted =
        [⟨.canalzk_up, 1, [czk.Clustername, czk.Zookeeper]⟩] ∧
      ∀ (z : Session) (s : Sample),
        s ∈ (collectNew czk (.connected z) clock).emitted → s.desc ≠ .canalzk_up := by
  refine ⟨rfl, ?_⟩
  intro z s hs
  obtain ⟨_, _, _, hu⟩ := collectNew_connected_samples czk z clock s hs
  exact hu

/-- An instance on the sample deployment: a failed connect, and a connect to the healthy
store. -/
theorem connect_error_emits_only_up_witness :
    (collectNew shard1 .failed (clockAt 1700000000 0)).emitted =
        [⟨.canalzk_up, 1, ["shard1", "zk1:2181"]⟩] ∧
      ∀ s : Sample, s ∈ (collectNew shard1 (.connected healthy) (clockAt 1700000000 0)).emitted →
        s.desc ≠ .canalzk_up :=
  ⟨(connect_error_emits_only_up shard1 (clockAt 1700000000 0)).1,
    (connect_error_emits_only_up shard1 (clockAt 1700000000 0)).2 healthy⟩

/-- C7: when connect succeeds and listing the children of `<Chroot>/otter/canal/destinations`
returns an error, the scan sends no sample at all, whatever the Filter and the rest of the
store. -/
theorem listing_error_emits_nothing (czk : canalzk) (z : Session) (clock : Clock)
    (h : z.Children (destinationsPath czk) = none) :
    (collectNew czk (.connected z) clock).emitted = [] := by
  rw [collectNew_listing_error czk z clock h]

/-- An instance on the sample deployment: the listing of the destinations fails. -/
theorem listing_error_emits_nothing_witness :
    (store none (some ["n1"]) (cursorAt 1000)).Children (destinationsPath shard1) = none ∧
      (collectNew shard1 (.connected (store none (some ["n1"]) (cursorAt 1000)))
        (clockAt 1700000000 0)).emitted = [] :=
  ⟨by decide, listing_error_emits_nothing shard1 _ _ (by decide)⟩

/-! ## The exclusion filter -/

/-- C4: for a destination `d` named in the Filter, no sample of any metric carries the
destination label `d`, whatever the store holds; and the scan of a store that does not list
`d` among the destinations, and otherwise answers the same, is the same scan. -/
theorem excluded_destination_is_skipped (czk : canalzk) (conn : ConnectResult) (clock : Clock)
    (d : String) (hd : d ∈ czk.Filter) :
    (∀ s ∈ (collectNew czk conn clock).emitted, s.label "destination" ≠ some d) ∧
      ∀ (z z1 : Session) (insts : List String), conn = .connected z →
        z.Children (destinationsPath czk) = some insts →
        z1.Children (destinationsPath czk) = some (insts.filter (fun i => decide (i ≠ d))) →
        z1.Get = z.Get →
        (∀ i ∈ insts, z1.Children (clusterPath czk i) = z.Children (clusterPath czk i)) →
        collectNew czk (.connected z1) clock = collectNew czk conn clock := by
  have hx : excluded czk d = true := (excluded_iff czk d).mpr hd
  constructor
  · intro s hs
    cases conn with
    | failed =>
      simp only [collectNew, List.mem_singleton] at hs
      subst hs
      simp [Sample.label, Desc.variableLabels, List.lookup]
    | connected z =>
      obtain ⟨i, hi, hlab, hu⟩ := collectNew_connected_samples czk z clock s hs
      rw [label_destination s czk.Clustername i hlab hu]
      intro h
      rw [Option.some.inj h, hx] at hi
      exact Bool.noConfusion hi
  · intro z z1 insts hconn hl hl1 hget hcl
    subst hconn
    unfold destinationsPath at hl hl1
    simp only [collectNew, hl, hl1]
    rw [scanInstances_congr czk z z1 clock hget _ 0
      (fun i hi => hcl i (List.mem_of_mem_filter hi))]
    exact scanInstances_filter_excluded czk z clock d hx insts 0

/-- An instance on the sample deployment: `inst2` is excluded, and the store that does not
list `inst2` gives the same scan as the healthy store. -/
theorem excluded_destination_is_skipped_witness :
    "inst2" ∈ shard1.Filter ∧
      (∀ s ∈ (collectNew shard1 (.connected healthy) (clockAt 1700000000 0)).emitted,
        s.label "destination" ≠ some "inst2") ∧
      collectNew shard1
          (.connected (store (some ["inst1", "inst3"]) (some ["n1", "n2", "n3"]) (cursorAt 1000)))
          (clockAt 1700000000 0) =
        collectNew shard1 (.connected healthy) (clockAt 1700000000 0) :=
  ⟨by decide,
    (excluded_destination_is_skipped shard1 (.connected healthy) (clockAt 1700000000 0) "inst2"
      (by decide)).1,
    (excluded_destination_is_skipped shard1 (.connected healthy) (clockAt 1700000000 0) "inst2"
      (by decide)).2 healthy
      (store (some ["inst1", "inst3"]) (some ["n1", "n2", "n3"]) (cursorAt 1000))
      ["inst1", "inst2", "inst3"] rfl (by decide) (by decide) rfl (by decide)⟩

/-! ## At most one sample per metric and destination -/

/-- C9: when the listed destination names are pairwise distinct, one scan sends, for each
metric and each destination, at most one sample labelled (Clustername, destination); it sends
at most one `up` sample, and an `up` sample is sent only when connect failed and is labelled
(Clustername, Zookeeper), the endpoint. -/
theorem at_most_one_sample_per_kind (czk : canalzk) (conn : ConnectResult) (clock : Clock)
    (hnd : ∀ (z : Session) (insts : List String), conn = .connected z →
      z.Children (destinationsPath czk) = some insts → insts.Nodup) :
    (∀ (m : Desc) (d : String),
        (samplesOf m (samplesFor czk d (collectNew czk conn clock).emitted)).length ≤ 1) ∧
      (samplesOf .canalzk_up (collectNew czk conn clock).emitted).length ≤ 1 ∧
      ∀ s ∈ (collectNew czk conn clock).emitted, s.desc = .canalzk_up →
        conn.err = true ∧ s.labelValues = [czk.Clustername, czk.Zookeeper] := by
  cases conn with
  | failed =>
    refine ⟨?_, by simp [collectNew, samplesOf], ?_⟩
    · intro m d
      simp only [collectNew, samplesFor, samplesOf]
      exact Nat.le_trans (List.length_filter_le _ _)
        (Nat.le_trans (List.length_filter_le _ _) (by simp))
    · intro s hs _
      simp only [collectNew, List.mem_singleton] at hs
      subst hs
      exact ⟨rfl, rfl⟩
  | connected z =>
    have hup : ∀ s ∈ (collectNew czk (.connected z) clock).emitted, s.desc ≠ .canalzk_up :=
      fun s hs => (collectNew_connected_samples czk z clock s hs).choose_spec.2.2
    refine ⟨?_, ?_, fun s hs h => absurd h (hup s hs)⟩
    · intro m d
      cases hl : z.Children (destinationsPath czk) with
      | none => simp [collectNew_listing_error czk z clock hl, samplesFor, samplesOf]
      | some insts =>
        rw [collectNew_listed czk z clock insts hl]
        exact samplesOf_samplesFor_scanInstances_length czk z clock m d insts 0
          (hnd z insts rfl hl)
    · have : samplesOf .canalzk_up (collectNew czk (.connected z) clock).emitted = [] := by
        unfold samplesOf
        rw [List.filter_eq_nil_iff]
        intro s hs
        simpa using hup s hs
      simp [this]

/-- An instance on the sample deployment, whose three destination names are distinct. -/
theorem at_most_one_sample_per_kind_witness :
    (samplesOf .canalzk_running (samplesFor shard1 "inst1"
        (collectNew shard1 (.connected healthy) (clockAt 1700000000 0)).emitted)).length ≤ 1 :=
  (at_most_one_sample_per_kind shard1 (.connected healthy) (clockAt 1700000000 0)
    (by
      intro z insts hz hl
      cases hz
      have h : healthy.Children (destinationsPath shard1) = some ["inst1", "inst2", "inst3"] := by
        decide
      rw [h] at hl
      cases hl
      decide)).1 .canalzk_running "inst1"

/-! ## The samples of a destination that is scanned -/

/-- C2, counterexample: `inst1` is listed and not excluded and its `running` node is readable,
but listing `inst1/cluster` fails, and the scan sends no `running` sample for `inst1`. -/
theorem running_sample_missing_when_cluster_listing_fails :
    noCluster.Children (destinationsPath shard1) = some ["inst1", "inst2", "inst3"] ∧
      "inst1" ∉ shard1.Filter ∧
      noCluster.Children (clusterPath shard1 "inst1") = none ∧
      (noCluster.Get (runningPath shard1 "inst1")).isSome = true ∧
      collectNew shard1 (.connected noCluster) (clockAt 1700000000 0) =
        ⟨[⟨.canalzk_cluster, 0, ["shard1", "inst1"]⟩,
          ⟨.canalzk_cluster, 2, ["shard1", "inst3"]⟩,
          ⟨.canalzk_running, 1, ["shard1", "inst3"]⟩], .returned⟩ ∧
      samplesOf .canalzk_running (samplesFor shard1 "inst1"
          (collectNew shard1 (.connected noCluster) (clockAt 1700000000 0)).emitted) = [] := by
  decide

/-- C2, amended: in a scan that runs to completion, for a non-excluded destination `d` listed
once, when listing `d/cluster` succeeds exactly one `running` sample is sent for
(Clustername, `d`), with value 0 when the read of `d/running` succeeds and 1 when it fails,
whatever the outcome of the cursor read; when listing `d/cluster` fails no `running` sample is
sent for `d`. -/
theorem running_sample_after_cluster_listing (czk : canalzk) (z : Session) (clock : Clock)
    (insts : List String) (d : String)
    (hl : z.Children (destinationsPath czk) = some insts) (hnd : insts.Nodup) (hd : d ∈ insts)
    (hx : d ∉ czk.Filter)
    (hexit : (collectNew czk (.connected z) clock).exit = .returned) :
    (∀ cl, z.Children (clusterPath czk d) = some cl →
        samplesOf .canalzk_running
            (samplesFor czk d (collectNew czk (.connected z) clock).emitted) =
          [⟨.canalzk_running, if (z.Get (runningPath czk d)).isSome then 0 else 1,
            [czk.Clustername, d]⟩]) ∧
      (z.Children (clusterPath czk d) = none →
        samplesOf .canalzk_running
            (samplesFor czk d (collectNew czk (.connected z) clock).emitted) = []) := by
  obtain ⟨kd, k1, hit⟩ := collectNew_samplesFor czk z clock insts d hl hnd hd hexit
  have hout := congrArg Prod.fst hit
  simp only at hout
  rw [← hout]
  rcases iteration_cases czk z d (excluded_eq_false czk d hx) with
    ⟨hc, h⟩ | ⟨cl, hc, ⟨_, h⟩ | ⟨info, _, _, h⟩ | ⟨info, p, _, _, h⟩⟩
  · rw [h clock kd, hc]
    exact ⟨fun cl hcl => Option.noConfusion hcl, fun _ => by simp [samplesOf]⟩
  · rw [h clock kd, hc]
    exact ⟨fun cl _ => by simp [samplesOf], fun hn => Option.noConfusion hn⟩
  · rw [h clock kd, hc]
    exact ⟨fun cl _ => by simp [samplesOf], fun hn => Option.noConfusion hn⟩
  · rw [h clock kd, hc]
    exact ⟨fun cl _ => by simp [samplesOf], fun hn => Option.noConfusion hn⟩

/-- An instance on the sample deployment: `inst3` has a `cluster` directory and no `running`
node. -/
theorem running_sample_after_cluster_listing_witness :
    samplesOf .canalzk_running (samplesFor shard1 "inst3"
        (collectNew shard1 (.connected healthy) (clockAt 1700000000 0)).emitted) =
      [⟨.canalzk_running, 1, ["shard1", "inst3"]⟩] :=
  (running_sample_after_cluster_listing shard1 healthy (clockAt 1700000000 0)
    ["inst1", "inst2", "inst3"] "inst3" (by decide) (by decide) (by decide) (by decide)
    (by decide)).1 ["n1", "n2"] (by decide)

/-- In a scan that runs to completion, a non-excluded destination listed once gets exactly one
`cluster` sample: 0 when listing its `cluster` directory fails, else the number of children
returned, as a float64. -/
theorem cluster_sample_of_scanned_destination (czk : canalzk) (z : Session) (clock : Clock)
    (insts : List String) (d : String)
    (hl : z.Children (destinationsPath czk) = some insts) (hnd : insts.Nodup) (hd : d ∈ insts)
    (hx : d ∉ czk.Filter)
    (hexit : (collectNew czk (.connected z) clock).exit = .returned) :
    samplesOf .canalzk_cluster
        (samplesFor czk d (collectNew czk (.connected z) clock).emitted) =
      [⟨.canalzk_cluster,
        roundToFloat64 (((z.Children (clusterPath czk d)).map List.length).getD 0 : Nat),
        [czk.Clustername, d]⟩] := by
  obtain ⟨kd, k1, hit⟩ := collectNew_samplesFor czk z clock insts d hl hnd hd hexit
  have hout := congrArg Prod.fst hit
  simp only at hout
  rw [← hout]
  rcases iteration_cases czk z d (excluded_eq_false czk d hx) with
    ⟨hc, h⟩ | ⟨cl, hc, ⟨_, h⟩ | ⟨info, _, _, h⟩ | ⟨info, p, _, _, h⟩⟩ <;>
  · rw [h clock kd, hc]
    simp [samplesOf, roundToFloat64_zero]

/-- C6, counterexample: `inst1` has three cluster members, a readable `running` node and the
cursor `{"postion":{"timestamp":1000}}`; at the clock reading 1700000000.5 s, that is
`now_ms = 1700000000500`, the `timestamp` sample sent is 1699999999000 and not
`now_ms - 1000 = 1699999999500`. -/
theorem lag_counts_whole_seconds :
    healthy.Children (clusterPath shard1 "inst1") = some ["n1", "n2", "n3"] ∧
      (healthy.Get (runningPath shard1 "inst1")).isSome = true ∧
      (unmarshalCursor (cursorAt 1000)).1.Postion = some { Timestamp := 1000 } ∧
      (∀ k, (clockAt 1700000000 500000000 k).UnixMilli - 1000 = 1699999999500) ∧
      samplesFor shard1 "inst1"
          (collectNew shard1 (.connected healthy) (clockAt 1700000000 500000000)).emitted =
        [⟨.canalzk_cluster, 3, ["shard1", "inst1"]⟩,
          ⟨.canalzk_running, 0, ["shard1", "inst1"]⟩,
          ⟨.canalzk_timestamp, 1699999999000, ["shard1", "inst1"]⟩] ∧
      (⟨.canalzk_timestamp, 1699999999500, ["shard1", "inst1"]⟩ : Sample) ∉
        (collectNew shard1 (.connected healthy) (clockAt 1700000000 500000000)).emitted := by
  refine ⟨by decide, by decide, by decide, fun _ => ?_, by decide, by decide⟩
  norm_num [clockAt, Time.UnixMilli]

/-- C6, amended: in a scan that runs to completion, for a non-excluded destination `d` listed
once whose `cluster` directory lists `n` children, whose `running` node is readable and whose
cursor payload is `{"postion":{"timestamp": T}}` with `|T| < 2 ^ 52`, the samples labelled
(Clustername, `d`) are exactly cluster = `n`, running = 0 and timestamp = `1000 * now_s - T`,
sent in this order and next to each other, where `now_s` is the clock in whole seconds since
the epoch as read by the call of `time.Now()` at that extraction: the call that follows one
earlier call for each `timestamp` sample sent before.  The clock readings lie within `2 ^ 42`
seconds of the epoch and `n < 2 ^ 53`, so that float64 holds all three values exactly. -/
theorem scenario_samples (czk : canalzk) (z : Session) (clock : Clock) (insts : List String)
    (d : String) (cl : List String) (T : Int)
    (hl : z.Children (destinationsPath czk) = some insts) (hnd : insts.Nodup) (hd : d ∈ insts)
    (hx : d ∉ czk.Filter)
    (hexit : (collectNew czk (.connected z) clock).exit = .returned)
    (hcl : z.Children (clusterPath czk d) = some cl)
    (hn : cl.length < 2 ^ 53)
    (hrun : (z.Get (runningPath czk d)).isSome = true)
    (hcur : z.Get (cursorPath czk d) = some (cursorAt T))
    (hT : T.natAbs < 2 ^ 52)
    (hclock : ∀ k, -(2 : Int) ^ 42 ≤ (clock k).sec ∧ (clock k).sec ≤ 2 ^ 42) :
    ∃ before after,
      (collectNew czk (.connected z) clock).emitted =
        before ++
          [⟨.canalzk_cluster, cl.length, [czk.Clustername, d]⟩,
            ⟨.canalzk_running, 0, [czk.Clustername, d]⟩,
            ⟨.canalzk_timestamp, (clock (nowCalls before)).Unix * 1000 - T,
              [czk.Clustername, d]⟩] ++ after ∧
      samplesFor czk d before = [] ∧ samplesFor czk d after = [] := by
  rw [collectNew_listed czk z clock insts hl] at hexit ⊢
  obtain ⟨before, after, out, k1, hem, hit, hb, ha⟩ :=
    scanInstances_split czk z clock d insts 0 hexit hnd hd
  refine ⟨before, after, ?_, hb, ha⟩
  rw [hem]
  rw [Nat.zero_add] at hit
  have hdec := unmarshalCursor_cursorAt T (by omega)
  have hk := hclock (nowCalls before)
  have hlag : roundToFloat64 (lag (clock (nowCalls before)) { Timestamp := T }) =
      (clock (nowCalls before)).Unix * 1000 - T := by
    have hb : -(2 : Int) ^ 62 ≤ T ∧ T ≤ 2 ^ 62 := by omega
    rw [lag_of_range (clock (nowCalls before)) { Timestamp := T } (by omega) hb]
    apply roundToFloat64_exact
    show ((clock (nowCalls before)).sec * 1000 - T).natAbs < 2 ^ 53
    omega
  have hlen : roundToFloat64 (cl.length : Int) = cl.length :=
    roundToFloat64_exact _ (by omega)
  rcases iteration_cases czk z d (excluded_eq_false czk d hx) with
    ⟨hc, _⟩ | ⟨cl1, hc, ⟨hg, _⟩ | ⟨info, hg, hp, _⟩ | ⟨info, p, hg, hp, h⟩⟩
  · rw [hcl] at hc; exact Option.noConfusion hc
  · rw [hcur] at hg; exact Option.noConfusion hg
  · rw [hcur] at hg
    cases hg
    rw [hdec] at hp
    exact Option.noConfusion hp
  · rw [hcur] at hg
    cases hg
    rw [hdec] at hp
    cases hp
    rw [hcl] at hc
    cases hc
    rw [h clock (nowCalls before), hrun, hlag, hlen] at hit
    cases hit
    rfl

/-- An instance on the sample deployment: `inst1` in the healthy store is the first
destination, so its lag is computed from the first reading of the clock. -/
theorem scenario_samples_witness :
    ∃ before after,
      (collectNew shard1 (.connected healthy) (clockAt 1700000000 500000000)).emitted =
        before ++
          [⟨.canalzk_cluster, 3, ["shard1", "inst1"]⟩,
            ⟨.canalzk_running, 0, ["shard1", "inst1"]⟩,
            ⟨.canalzk_timestamp,
              (clockAt 1700000000 500000000 (nowCalls before)).Unix * 1000 - 1000,
              ["shard1", "inst1"]⟩] ++ after ∧
      samplesFor shard1 "inst1" before = [] ∧ samplesFor shard1 "inst1" after = [] :=
  scenario_samples shard1 healthy (clockAt 1700000000 500000000) ["inst1", "inst2", "inst3"]
    "inst1" ["n1", "n2", "n3"] 1000 (by decide) (by decide) (by decide) (by decide) (by decide)
    (by decide) (by decide) (by decide) rfl (by decide) (fun _ => by simp [clockAt])

/-! ## Two scans of an unchanged store -/

theorem sameUpToLag_refl (s : Sample) : sameUpToLag s s :=
  ⟨rfl, rfl, fun _ => rfl⟩

/-- Two scans that differ only in the clock end the same way and send samples related by any
relation that holds between equal non-lag samples and between the two lag samples. -/
theorem collectNew_rel (R : Sample → Sample → Prop) (czk : canalzk) (conn : ConnectResult)
    (c1 c2 : Clock) (hrefl : ∀ s : Sample, s.desc ≠ .canalzk_timestamp → R s s)
    (hlag : ∀ z k i info p, conn = .connected z → z.Get (cursorPath czk i) = some info →
      (unmarshalCursor info).1.Postion = some p →
      R ⟨.canalzk_timestamp, roundToFloat64 (lag (c1 k) p), [czk.Clustername, i]⟩
        ⟨.canalzk_timestamp, roundToFloat64 (lag (c2 k) p), [czk.Clustername, i]⟩) :
    (collectNew czk conn c1).exit = (collectNew czk conn c2).exit ∧
      List.Forall₂ R (collectNew czk conn c1).emitted (collectNew czk conn c2).emitted := by
  cases conn with
  | failed => exact ⟨rfl, List.Forall₂.cons (hrefl _ (by simp)) List.Forall₂.nil⟩
  | connected z =>
    cases hl : z.Children (destinationsPath czk) with
    | none =>
      rw [collectNew_listing_error czk z c1 hl, collectNew_listing_error czk z c2 hl]
      exact ⟨rfl, List.Forall₂.nil⟩
    | some insts =>
      rw [collectNew_listed czk z c1 insts hl, collectNew_listed czk z c2 insts hl]
      exact scanInstances_rel R czk z c1 c2 hrefl (fun k i info p => hlag z k i info p rfl)
        insts 0

/-- C10, counterexample: the store is the same in both scans and the clock advances from
1699999999 s to 1700000000 s, but the cursor of `inst1` holds the timestamp
-9223370336854775808 and the int64 lag of the second scan overflows: the lag falls from
9223372036854774808 to -9223372036854775808, and the `timestamp` value sent, its float64,
from 9223372036854774784 to -9223372036854775808. -/
theorem lag_overflow_breaks_monotonicity :
    (∀ k, (clockAt 1699999999 0 k).sec ≤ (clockAt 1700000000 0 k).sec) ∧
      (unmarshalCursor (cursorAt (-9223370336854775808))).1.Postion =
        some { Timestamp := -9223370336854775808 } ∧
      lag ⟨1699999999, 0⟩ { Timestamp := -9223370336854775808 } = 9223372036854774808 ∧
      lag ⟨1700000000, 0⟩ { Timestamp := -9223370336854775808 } = -9223372036854775808 ∧
      samplesOf .canalzk_timestamp (samplesFor shard1 "inst1"
          (collectNew shard1 (.connected farPast) (clockAt 1699999999 0)).emitted) =
        [⟨.canalzk_timestamp, 9223372036854774784, ["shard1", "inst1"]⟩] ∧
      samplesOf .canalzk_timestamp (samplesFor shard1 "inst1"
          (collectNew shard1 (.connected farPast) (clockAt 1700000000 0)).emitted) =
        [⟨.canalzk_timestamp, -9223372036854775808, ["shard1", "inst1"]⟩] := by
  refine ⟨fun _ => ?_, by decide, by decide, by decide, by decide, by decide⟩
  norm_num [clockAt]

/-- C10, amended: two scans of the same descriptor and store that differ only in the clock end
the same way and send the same sequence of (metric, labels) pairs, with the same values for
every `up`, `cluster` and `running` sample; and when the readings of the second clock are not
before those of the first, all readings lie within `2 ^ 50` seconds of the epoch and every
cursor timestamp in the store lies within `2 ^ 62` ms of it, so that no lag overflows, the
value of each sample in the second scan is at least that of the first. -/
theorem two_scans_differ_only_in_lag (czk : canalzk) (conn : ConnectResult) (c1 c2 : Clock) :
    (collectNew czk conn c1).exit = (collectNew czk conn c2).exit ∧
      List.Forall₂ sameUpToLag (collectNew czk conn c1).emitted
        (collectNew czk conn c2).emitted ∧
      ((∀ k, (c1 k).sec ≤ (c2 k).sec) →
        (∀ k, -(2 : Int) ^ 50 ≤ (c1 k).sec ∧ (c2 k).sec ≤ 2 ^ 50) →
        (∀ z path info p, conn = .connected z → z.Get path = some info →
          (unmarshalCursor info).1.Postion = some p →
          -(2 : Int) ^ 62 ≤ p.Timestamp ∧ p.Timestamp ≤ 2 ^ 62) →
        List.Forall₂ (fun s1 s2 => s1.value ≤ s2.value) (collectNew czk conn c1).emitted
          (collectNew czk conn c2).emitted) := by
  have h1 := collectNew_rel sameUpToLag czk conn c1 c2 (fun s _ => sameUpToLag_refl s)
    (fun _ _ _ _ _ _ _ _ => ⟨rfl, rfl, fun h => absurd rfl h⟩)
  refine ⟨h1.1, h1.2, ?_⟩
  intro hle hclock hstore
  refine (collectNew_rel (fun s1 s2 => s1.value ≤ s2.value) czk conn c1 c2
    (fun s _ => le_refl _) ?_).2
  intro z k i info p hconn hg hp
  have hb := hstore z _ info p hconn hg hp
  have hk := hclock k
  have hl := hle k
  show roundToFloat64 (lag (c1 k) p) ≤ roundToFloat64 (lag (c2 k) p)
  apply roundToFloat64_mono
  rw [lag_of_range (c1 k) p ⟨hk.1, by omega⟩ hb, lag_of_range (c2 k) p ⟨by omega, hk.2⟩ hb]
  omega

/-- An instance on the sample deployment: two scans of the healthy store one second apart. -/
theorem two_scans_differ_only_in_lag_witness :
    List.Forall₂ (fun s1 s2 => s1.value ≤ s2.value)
      (collectNew shard1 (.connected healthy) (clockAt 1699999999 0)).emitted
      (collectNew shard1 (.connected healthy) (clockAt 1700000000 0)).emitted :=
  (two_scans_differ_only_in_lag shard1 (.connected healthy) (clockAt 1699999999 0)
    (clockAt 1700000000 0)).2.2
    (fun _ => by norm_num [clockAt])
    (fun _ => by norm_num [clockAt])
    (by
      intro z path info p hz hg hp
      cases hz
      simp only [healthy, withCursor, store] at hg
      split_ifs at hg <;> cases hg
      · cases hp
      · have h : (unmarshalCursor (cursorAt 1000)).1.Postion = some { Timestamp := 1000 } := by
          decide
        rw [h] at hp; cases hp; decide
      · cases hp
      · have h : (unmarshalCursor (cursorAt 2000)).1.Postion = some { Timestamp := 2000 } := by
          decide
        rw [h] at hp; cases hp; decide)

/-! ## Cursor payloads that do not decode to a position -/

/-- C5, failing input: for the cursor `{"postion":{"timestamp":"x"}}` decoding returns an
error, and the scan still sends a `timestamp` sample for `inst1`, computed from the zero
timestamp; for a cursor that is not valid JSON decoding returns an error and the scan panics
instead of going on to `inst3`. -/
theorem decode_error_is_not_skipped :
    (unmarshalCursor textTimestamp).2 = true ∧
      samplesOf .canalzk_timestamp (samplesFor shard1 "inst1"
          (collectNew shard1 (.connected (withCursor textTimestamp))
            (clockAt 1700000000 0)).emitted) =
        [⟨.canalzk_timestamp, 1700000000000, ["shard1", "inst1"]⟩] ∧
      (unmarshalCursor .invalid).2 = true ∧
      collectNew shard1 (.connected (withCursor .invalid)) (clockAt 1700000000 0) =
        ⟨[⟨.canalzk_cluster, 3, ["shard1", "inst1"]⟩,
          ⟨.canalzk_running, 0, ["shard1", "inst1"]⟩], .nilPostion⟩ := by
  decide

/-- C8, failing input: when the cursor of `inst1` is not valid JSON, is `{}` or is
`{"postion":null}`, the scan panics on the nil position after the `cluster` and `running`
samples of `inst1`, and `inst3` is never processed, while with a decodable cursor `inst3` gets
its samples; and after a connect error the deferred `Close` runs on the nil client. -/
theorem nil_position_aborts_scan :
    collectNew shard1 (.connected (withCursor .invalid)) (clockAt 1700000000 0) =
        ⟨[⟨.canalzk_cluster, 3, ["shard1", "inst1"]⟩,
          ⟨.canalzk_running, 0, ["shard1", "inst1"]⟩], .nilPostion⟩ ∧
      collectNew shard1 (.connected (withCursor emptyObject)) (clockAt 1700000000 0) =
        ⟨[⟨.canalzk_cluster, 3, ["shard1", "inst1"]⟩,
          ⟨.canalzk_running, 0, ["shard1", "inst1"]⟩], .nilPostion⟩ ∧
      collectNew shard1 (.connected (withCursor nullPostion)) (clockAt 1700000000 0) =
        ⟨[⟨.canalzk_cluster, 3, ["shard1", "inst1"]⟩,
          ⟨.canalzk_running, 0, ["shard1", "inst1"]⟩], .nilPostion⟩ ∧
      samplesFor shard1 "inst3"
          (collectNew shard1 (.connected healthy) (clockAt 1700000000 0)).emitted =
        [⟨.canalzk_cluster, 2, ["shard1", "inst3"]⟩,
          ⟨.canalzk_running, 1, ["shard1", "inst3"]⟩] ∧
      (collectNew shard1 .failed (clockAt 1700000000 0)).exit = .closeOnNil := by
  decide

/-- C3, failing input: `inst3` is listed, not excluded and its `cluster` directory lists two
children, but the cursor of `inst1` is `{}`, the scan panics at `inst1` and no `cluster`
sample is sent for `inst3`. -/
theorem cluster_sample_missing_after_panic :
    (withCursor emptyObject).Children (destinationsPath shard1) =
        some ["inst1", "inst2", "inst3"] ∧
      "inst3" ∉ shard1.Filter ∧
      (withCursor emptyObject).Children (clusterPath shard1 "inst3") = some ["n1", "n2"] ∧
      (collectNew shard1 (.connected (withCursor emptyObject)) (clockAt 1700000000 0)).exit =
        .nilPostion ∧
      samplesOf .canalzk_cluster (samplesFor shard1 "inst3"
          (collectNew shard1 (.connected (withCursor emptyObject))
            (clockAt 1700000000 0)).emitted) = [] := by
  decide

end CanalZk
